import Mathlib

/-!
Verification of the mc-cli membership-list logic.

This file gives a shallow embedding of the allowlist / permission-list
synchronization logic of the mc-cli tool (src/cli/cli.py) and proves the
frozen claims about it.

Modelling conventions:
- Allowlist and permission-list documents are modelled as typed lists of
  records (the JSON objects this tool itself reads and writes).
- The container runtime is an oracle mapping a command argument vector
  (a list of strings, as passed to subprocess.run after "docker") to a
  completed-process result (returncode, stdout).
- Errors raised via click.ClickException are modelled by an inductive
  with one constructor per distinct raise site / message template; two
  raise sites that emit the same message share one constructor.
- json.dump with indent 2 and json.loads are modelled by an executable
  serializer and an executable fuelled parser for the document shape this
  tool reads and writes (arrays of objects whose fields are strings),
  including the ensure-ascii escape conventions of the Python encoder.
-/

namespace McCli

/-- One entry of /data/allowlist.json: name, uuid, and the optional
platform id (absent until the player first connects). -/
structure AllowlistEntry where
  name : String
  uuid : String
  xuid : Option String
deriving DecidableEq, Repr

/-- One entry of /data/permissionlist.json. Both fields are optional at the
JSON level (the code accesses them with dict.get); the entries written by
grant always carry both. -/
structure PermissionEntry where
  xuid : Option String
  permission : Option String
deriving DecidableEq, Repr

/-- The distinct failure modes of the CLI commands. Each constructor
stands for one click.ClickException message template of cli.py; the
grant and revoke allowlist lookups raise the same message from a single
check, hence share the single constructor userLookupFailed. -/
inductive CliError where
  /-- Uncaught json.JSONDecodeError from json.loads on unparsable content. -/
  | jsonDecodeError
  /-- add_user: message User already exists in allowlist. -/
  | duplicateUser
  /-- remove_user: message User NAME not found in allowlist. -/
  | userNotFoundAllowlist
  /-- grant and revoke: message User does not exist in allowlist.json,
  raised when no entry has the requested name together with a populated
  xuid (the code does not separate the two situations). -/
  | userLookupFailed
  /-- grant: message NAME is not a recognized permission group. -/
  | invalidPermission
  /-- revoke: message User NAME is not in the permissionlist. -/
  | userNotInPermissionList
  /-- add_user, remove_user, grant, revoke: message Failed to update
  allowlist respectively permissionlist, when the docker cp publish
  step fails. -/
  | transferFailed
  /-- backup: message Docker exec tar command failed. -/
  | archiveFailed
  /-- backup: message Docker cp command failed. -/
  | copyFailed
deriving DecidableEq, Repr

/-- Model of subprocess.CompletedProcess as used by cli.py. -/
structure CmdResult where
  returncode : Int
  stdout : String
deriving DecidableEq, Repr

/-- cli/config/permissions.py: the PermissionLevel enum. -/
inductive PermissionLevel where
  | VISITOR
  | MEMBER
  | OPERATOR
  | ADMIN
deriving DecidableEq, Repr

/-- The value attribute of each PermissionLevel member. -/
def PermissionLevel.value : PermissionLevel → String
  | .VISITOR => "visitor"
  | .MEMBER => "member"
  | .OPERATOR => "operator"
  | .ADMIN => "admin"

/-- list(PermissionLevel): the members in declaration order. -/
def PermissionLevel.all : List PermissionLevel :=
  [.VISITOR, .MEMBER, .OPERATOR, .ADMIN]

/-- Model of the Python str.lower() call on the strings this tool handles.
Char.toLower lowers the ASCII range, which covers the recognized
permission level names; the full Unicode case table is not modelled. -/
def lowerStr (s : String) : String := String.mk (s.data.map Char.toLower)

/-- cli.py line 291: any(p.value == permission.lower() for p in
list(PermissionLevel)). -/
def isRecognizedPermission (permission : String) : Bool :=
  PermissionLevel.all.any (fun p => p.value == lowerStr permission)

/-! ## Pure cores of the membership operations

Each core is the in-memory mutation a command performs between reading
the remote JSON state and publishing it back. -/

/-- cli.py lines 196-201 (add_user): duplicate check and append. -/
def add_userCore (allowlist_data : List AllowlistEntry) (name uuid : String) :
    Except CliError (List AllowlistEntry) :=
  if allowlist_data.any (fun user => user.name == name || user.uuid == uuid) then
    .error .duplicateUser
  else
    .ok (allowlist_data ++ [{ name := name, uuid := uuid, xuid := none }])

/-- cli.py lines 234-239 (remove_user): filter by name, fail when the
length did not change. -/
def remove_userCore (allowlist_data : List AllowlistEntry) (name : String) :
    Except CliError (List AllowlistEntry) :=
  if (allowlist_data.filter (fun user => user.name != name)).length ==
      allowlist_data.length then
    .error .userNotFoundAllowlist
  else
    .ok (allowlist_data.filter (fun user => user.name != name))

/-- cli.py line 274: next((user for user in allowlist_data if
user.get(name) == name and user.get(xuid) is not None), None). -/
def findGrantTarget (allowlist_data : List AllowlistEntry) (name : String) :
    Option AllowlistEntry :=
  allowlist_data.find? (fun user => user.name == name && user.xuid.isSome)

/-- cli.py lines 290-295 (grant, after the allowlist lookup succeeded):
validate the permission level, then append the new grant record. -/
def grantAfterLookup (user_entry : AllowlistEntry)
    (permissionlist_data : List PermissionEntry) (permission : String) :
    Except CliError (List PermissionEntry) :=
  if !(isRecognizedPermission permission) then
    .error .invalidPermission
  else
    .ok (permissionlist_data ++
      [{ xuid := user_entry.xuid, permission := some (lowerStr permission) }])

/-- cli.py lines 272-295 (grant) on already-fetched lists: lookup,
validate, append. -/
def grantCore (allowlist_data : List AllowlistEntry)
    (permissionlist_data : List PermissionEntry) (name permission : String) :
    Except CliError (List PermissionEntry) :=
  match findGrantTarget allowlist_data name with
  | none => .error .userLookupFailed
  | some user_entry => grantAfterLookup user_entry permissionlist_data permission

/-- cli.py lines 343-347 (revoke, after the allowlist lookup succeeded):
drop every permission entry whose xuid equals the resolved one, fail when
nothing was dropped. -/
def revokeAfterLookup (user_entry : AllowlistEntry)
    (permissionlist_data : List PermissionEntry) :
    Except CliError (List PermissionEntry) :=
  if (permissionlist_data.filter (fun entry => entry.xuid != user_entry.xuid)).length ==
      permissionlist_data.length then
    .error .userNotInPermissionList
  else
    .ok (permissionlist_data.filter (fun entry => entry.xuid != user_entry.xuid))

/-- cli.py lines 319-347 (revoke) on already-fetched lists. -/
def revokeCore (allowlist_data : List AllowlistEntry)
    (permissionlist_data : List PermissionEntry) (name : String) :
    Except CliError (List PermissionEntry) :=
  match findGrantTarget allowlist_data name with
  | none => .error .userLookupFailed
  | some user_entry => revokeAfterLookup user_entry permissionlist_data

/-- The allowlist invariant of the spec: no two entries share a name and
no two entries share a uuid. -/
def allowlistInv (allowlist_data : List AllowlistEntry) : Prop :=
  (allowlist_data.map AllowlistEntry.name).Nodup ∧
  (allowlist_data.map AllowlistEntry.uuid).Nodup

/-! ## Serialization: model of json.dump(data, f, indent=2)

The Python encoder (default ensure_ascii) writes, for the documents this
tool produces, an array of objects of string fields, each string escaped
with the basic shorthand escapes, lowercase 4-digit hex escapes for other
control and non-ASCII characters, and surrogate pairs above 0xFFFF. -/

/-- Lowercase hex digit of a value below 16, as Python format 04x emits. -/
def hexDig (k : Nat) : Char :=
  if k < 10 then Char.ofNat (48 + k) else Char.ofNat (87 + k)

/-- The four lowercase hex digits of a code unit below 0x10000. -/
def toHex4 (n : Nat) : List Char :=
  [hexDig (n / 4096 % 16), hexDig (n / 256 % 16), hexDig (n / 16 % 16), hexDig (n % 16)]

/-- Escape of one character inside a JSON string literal, as the Python
encoder with ensure_ascii produces it: shorthand escapes, literal
printable ASCII, a 4-digit hex escape for other characters of the basic
plane, and a surrogate pair beyond it. -/
def escChar (c : Char) : List Char :=
  if c = '"' then ['\\', '"']
  else if c = '\\' then ['\\', '\\']
  else if c = '\x08' then ['\\', 'b']
  else if c = '\t' then ['\\', 't']
  else if c = '\n' then ['\\', 'n']
  else if c = '\x0c' then ['\\', 'f']
  else if c = '\r' then ['\\', 'r']
  else if 0x20 ≤ c.toNat ∧ c.toNat ≤ 0x7e then [c]
  else if c.toNat < 0x10000 then '\\' :: 'u' :: toHex4 c.toNat
  else
    ('\\' :: 'u' :: toHex4 (0xd800 + (c.toNat - 0x10000) / 1024)) ++
      ('\\' :: 'u' :: toHex4 (0xdc00 + (c.toNat - 0x10000) % 1024))

/-- Escaped body of a JSON string literal. -/
def escStr (s : String) : List Char := s.data.flatMap escChar

/-- A complete JSON string literal. -/
def serStr (s : String) : List Char := '"' :: (escStr s ++ ['"'])

/-- Two spaces: the indentation of depth-1 items under indent=2. -/
def sp2 : List Char := [' ', ' ']

/-- Four spaces: the indentation of depth-2 members under indent=2. -/
def sp4 : List Char := [' ', ' ', ' ', ' ']

/-- The members of a depth-1 object, separated as the Python encoder does
at indent=2: comma, newline, four spaces. -/
def serMembers : List (String × String) → List Char
  | [] => []
  | [(k, v)] => serStr k ++ (':' :: ' ' :: serStr v)
  | (k, v) :: rest =>
    serStr k ++ (':' :: ' ' :: serStr v) ++ ((',' :: '\n' :: sp4) ++ serMembers rest)

/-- A depth-1 object at indent=2. -/
def serObj (fields : List (String × String)) : List Char :=
  match fields with
  | [] => ['{', '}']
  | _ => ('{' :: '\n' :: sp4) ++ (serMembers fields ++ ('\n' :: (sp2 ++ ['}'])))

/-- The items of the top-level array, separated by comma, newline, two
spaces. -/
def serItems : List (List Char) → List Char
  | [] => []
  | [x] => x
  | x :: rest => x ++ ((',' :: '\n' :: sp2) ++ serItems rest)

/-- The field list of an allowlist entry in the order the tool writes it;
the xuid key is omitted when absent. -/
def entryFields (e : AllowlistEntry) : List (String × String) :=
  [("name", e.name), ("uuid", e.uuid)] ++
    (match e.xuid with
     | some x => [("xuid", x)]
     | none => [])

/-- The field list of a permission entry in the order grant writes it. -/
def permEntryFields (e : PermissionEntry) : List (String × String) :=
  (match e.xuid with
   | some x => [("xuid", x)]
   | none => []) ++
    (match e.permission with
     | some p => [("permission", p)]
     | none => [])

/-- A top-level JSON array of objects at indent=2, exactly as json.dump
lays it out. -/
def serObjArray (objs : List (List (String × String))) : List Char :=
  match objs with
  | [] => ['[', ']']
  | _ => ('[' :: '\n' :: sp2) ++ (serItems (objs.map serObj) ++ ['\n', ']'])

/-- json.dump(allowlist_data, f, indent=2) for a typed allowlist. -/
def serializeAllowlist (l : List AllowlistEntry) : String :=
  String.mk (serObjArray (l.map entryFields))

/-- json.dump(permissionlist_data, f, indent=2) for a typed permission
list. -/
def serializePermissionlist (l : List PermissionEntry) : String :=
  String.mk (serObjArray (l.map permEntryFields))

/-! ## Parsing: model of json.loads on the documents this tool reads

The parser accepts the JSON documents this tool itself writes (arrays of
objects whose fields are strings, arbitrary JSON whitespace) and rejects
everything else; json.loads would also accept other JSON value shapes,
which this system never stores in the two list files. The recursive
functions carry an explicit fuel so that every definition is structural
and computable by the kernel. -/

/-- Value of one hex digit, either case, as json.loads accepts. -/
def hexVal (c : Char) : Option Nat :=
  let n := c.toNat
  if 48 ≤ n ∧ n ≤ 57 then some (n - 48)
  else if 97 ≤ n ∧ n ≤ 102 then some (n - 87)
  else if 65 ≤ n ∧ n ≤ 70 then some (n - 55)
  else none

/-- The JSON whitespace characters. -/
def isWsChar (c : Char) : Bool := c = ' ' || c = '\n' || c = '\t' || c = '\r'

/-- Drop leading JSON whitespace. -/
def skipWs : List Char → List Char
  | [] => []
  | c :: rest => if isWsChar c then skipWs rest else c :: rest

/-- Decode four hex digits. -/
def decodeHex4 : List Char → Option (Nat × List Char)
  | a :: b :: c :: d :: rest =>
    match hexVal a, hexVal b, hexVal c, hexVal d with
    | some va, some vb, some vc, some vd =>
      some (((va * 16 + vb) * 16 + vc) * 16 + vd, rest)
    | _, _, _, _ => none
  | _ => none

/-- After a high surrogate, decode the second escaped low surrogate of a
pair. -/
def decodeLowSurrogate (h : Nat) : List Char → Option (Char × List Char)
  | c1 :: c2 :: rest2 =>
    if c1 = '\\' ∧ c2 = 'u' then
      (decodeHex4 rest2).bind (fun q =>
        if 0xdc00 ≤ q.1 ∧ q.1 ≤ 0xdfff then
          some (Char.ofNat (0x10000 + (h - 0xd800) * 1024 + (q.1 - 0xdc00)), q.2)
        else none)
    else none
  | _ => none

/-- Continuation after the first hex quad of a backslash-u escape: either
a non-surrogate basic-plane character, or a high surrogate that must be
followed by a second escaped low surrogate; a lone surrogate escape is
rejected (this tool never writes one). -/
def decodeUEscCore (h : Nat) (rest : List Char) : Option (Char × List Char) :=
  if h < 0xd800 ∨ 0xdfff < h then some (Char.ofNat h, rest)
  else if h ≤ 0xdbff then decodeLowSurrogate h rest
  else none

/-- Decode a hex escape after the backslash-u introducer. -/
def decodeUEsc (cs : List Char) : Option (Char × List Char) :=
  (decodeHex4 cs).bind (fun p => decodeUEscCore p.1 p.2)

/-- Decode one escape sequence after a backslash. -/
def decodeEsc : List Char → Option (Char × List Char)
  | '"' :: rest => some ('"', rest)
  | '\\' :: rest => some ('\\', rest)
  | '/' :: rest => some ('/', rest)
  | 'b' :: rest => some ('\x08', rest)
  | 'f' :: rest => some ('\x0c', rest)
  | 'n' :: rest => some ('\n', rest)
  | 'r' :: rest => some ('\r', rest)
  | 't' :: rest => some ('\t', rest)
  | 'u' :: rest => decodeUEsc rest
  | _ => none

/-- Body of a JSON string literal after the opening quote: characters up
to the closing quote, raw control characters rejected as in strict-mode
json.loads. One unit of fuel is spent per source character. -/
def parseStrBody : Nat → List Char → Option (List Char × List Char)
  | 0, _ => none
  | _ + 1, [] => none
  | fuel + 1, c :: rest =>
    if c = '"' then some ([], rest)
    else if c = '\\' then
      (decodeEsc rest).bind (fun p =>
        (parseStrBody fuel p.2).map (fun q => (p.1 :: q.1, q.2)))
    else if c.toNat < 0x20 then none
    else (parseStrBody fuel rest).map (fun q => (c :: q.1, q.2))

/-- A complete JSON string literal, fuelled by the remaining input. -/
def parseJString : List Char → Option (String × List Char)
  | c :: rest =>
    if c = '"' then
      (parseStrBody (rest.length + 1) rest).map (fun p => (String.mk p.1, p.2))
    else none
  | [] => none

/-- Members of an object after the opening brace (whitespace before the
first key already dropped): key, colon, string value, then a comma and
further members or the closing brace. One unit of fuel per member. -/
def parseMembers : Nat → List Char → Option (List (String × String) × List Char)
  | 0, _ => none
  | fuel + 1, cs =>
    (parseJString cs).bind (fun kp =>
      match skipWs kp.2 with
      | c :: r2 =>
        if c = ':' then
          (parseJString (skipWs r2)).bind (fun vp =>
            match skipWs vp.2 with
            | x :: r4 =>
              if x = ',' then
                (parseMembers fuel (skipWs r4)).map
                  (fun mp => ((kp.1, vp.1) :: mp.1, mp.2))
              else if x = '}' then some ([(kp.1, vp.1)], r4)
              else none
            | [] => none)
        else none
      | [] => none)

/-- One object: brace, members or nothing, brace. -/
def parseObject (cs : List Char) : Option (List (String × String) × List Char) :=
  match skipWs cs with
  | x :: r =>
    if x = '{' then
      match skipWs r with
      | y :: r2 =>
        if y = '}' then some ([], r2)
        else parseMembers ((y :: r2).length + 1) (y :: r2)
      | [] => none
    else none
  | [] => none

/-- Items of the top-level array after the opening bracket: an object,
then a comma and further items or the closing bracket. -/
def parseItems : Nat → List Char → Option (List (List (String × String)) × List Char)
  | 0, _ => none
  | fuel + 1, cs =>
    (parseObject cs).bind (fun op =>
      match skipWs op.2 with
      | x :: r2 =>
        if x = ',' then
          (parseItems fuel r2).map (fun ip => (op.1 :: ip.1, ip.2))
        else if x = ']' then some ([op.1], r2)
        else none
      | [] => none)

/-- A whole document: one array of objects and trailing whitespace. -/
def parseObjArray (s : String) : Option (List (List (String × String))) :=
  match skipWs s.data with
  | x :: r =>
    if x = '[' then
      match skipWs r with
      | y :: r2 =>
        if y = ']' then if (skipWs r2).isEmpty then some [] else none
        else
          (parseItems (r.length + 1) r).bind (fun ip =>
            if (skipWs ip.2).isEmpty then some ip.1 else none)
      | [] => none
    else none
  | [] => none

/-- First value of a key in a field list; the documents this tool writes
never repeat a key, so first match and dict semantics agree. -/
def lookupField (fields : List (String × String)) (key : String) : Option String :=
  (fields.find? (fun kv => kv.1 == key)).map (fun kv => kv.2)

/-- Typed view of one parsed allowlist object. -/
def entryOfFields (fields : List (String × String)) : Option AllowlistEntry :=
  match lookupField fields "name", lookupField fields "uuid" with
  | some n, some u => some { name := n, uuid := u, xuid := lookupField fields "xuid" }
  | _, _ => none

/-- Typed view of one parsed permission object; both fields are read with
dict.get semantics. -/
def permEntryOfFields (fields : List (String × String)) : PermissionEntry :=
  { xuid := lookupField fields "xuid", permission := lookupField fields "permission" }

/-- json.loads of /data/allowlist.json content, as cli.py consumes it. -/
def parseAllowlist (s : String) : Option (List AllowlistEntry) :=
  match parseObjArray s with
  | some objs => objs.mapM entryOfFields
  | none => none

/-- json.loads of /data/permissionlist.json content. -/
def parsePermissionlist (s : String) : Option (List PermissionEntry) :=
  match parseObjArray s with
  | some objs => some (objs.map permEntryOfFields)
  | none => none

example : parseAllowlist (serializeAllowlist []) = some [] := by decide

example :
    parseAllowlist (serializeAllowlist
      [{ name := "alice", uuid := "u1", xuid := some "x1" },
       { name := "bob", uuid := "u2", xuid := none }]) =
    some [{ name := "alice", uuid := "u1", xuid := some "x1" },
          { name := "bob", uuid := "u2", xuid := none }] := by decide

example : parseAllowlist "not json" = none := by decide

/-! ## The effectful layer

Each CLI command issues docker commands in sequence. A run of a command
is modelled against an oracle mapping the argument vector (the list
passed to subprocess.run after the docker executable) to its result, and
produces the trace of issued commands together with the temporary-file
events of the publish step. -/

/-- cli.py line 13. -/
def DOCKER_CONTAINER_NAME : String := "mc-bedrock"

/-- cli.py lines 188-193 and 266-271: exec cat of the allowlist. -/
def catAllowlistCmd : List String :=
  ["exec", DOCKER_CONTAINER_NAME, "cat", "/data/allowlist.json"]

/-- cli.py lines 282-287 and 335-340: exec cat of the permission list. -/
def catPermlistCmd : List String :=
  ["exec", DOCKER_CONTAINER_NAME, "cat", "/data/permissionlist.json"]

/-- cli.py lines 208-212 and 247-251: docker cp of the temp file onto the
allowlist. -/
def cpToAllowlistCmd (temp_path : String) : List String :=
  ["cp", temp_path, DOCKER_CONTAINER_NAME ++ ":/data/allowlist.json"]

/-- cli.py lines 303-307 and 355-359: docker cp of the temp file onto the
permission list. -/
def cpToPermlistCmd (temp_path : String) : List String :=
  ["cp", temp_path, DOCKER_CONTAINER_NAME ++ ":/data/permissionlist.json"]

/-- cli.py lines 153-160: archive the world data inside the container. -/
def tarCmd (backup_name : String) : List String :=
  ["exec", DOCKER_CONTAINER_NAME, "tar", "czf",
    "/data/backups/" ++ backup_name, "/data/worlds"]

/-- cli.py lines 168-172: copy the archive out of the container. -/
def backupCpCmd (backup_name backup_dest : String) : List String :=
  ["cp", DOCKER_CONTAINER_NAME ++ ":/data/backups/" ++ backup_name,
    backup_dest ++ "/" ++ backup_name]

/-- cli.py lines 188-194 and analogous sites: run exec cat and take
json.loads of stdout when the command succeeded, else the empty list; a
parse failure of retrieved content is the uncaught json.JSONDecodeError
of the source. -/
def readAllowlistStep (run : List String → CmdResult) :
    Except CliError (List AllowlistEntry) :=
  if (run catAllowlistCmd).returncode == 0 then
    match parseAllowlist (run catAllowlistCmd).stdout with
    | some l => .ok l
    | none => .error .jsonDecodeError
  else .ok []

/-- The same read step for /data/permissionlist.json. -/
def readPermlistStep (run : List String → CmdResult) :
    Except CliError (List PermissionEntry) :=
  if (run catPermlistCmd).returncode == 0 then
    match parsePermissionlist (run catPermlistCmd).stdout with
    | some l => .ok l
    | none => .error .jsonDecodeError
  else .ok []

deriving instance DecidableEq for Except

/-- Observable outcome of one CLI command run: the result, the docker
commands issued in order, the temp files created and the temp files
deleted, and the content written to the temp file when the publish step
was reached. -/
structure OpOutcome where
  result : Except CliError Unit
  trace : List (List String)
  tempsCreated : List String
  tempsDeleted : List String
  tempContent : Option String
deriving DecidableEq, Repr

/-- cli.py lines 203-217 pattern (also 242-256, 298-312, 350-364): dump
the new document to a NamedTemporaryFile, docker cp it over the remote
file inside try, and unlink the temp file in finally, so the deletion
happens on the success path and on the raising path alike. -/
def publishStep (run : List String → CmdResult) (temp_path : String)
    (cpCmd : List String) (content : String)
    (readTrace : List (List String)) : OpOutcome :=
  if (run cpCmd).returncode == 0 then
    { result := .ok (), trace := readTrace ++ [cpCmd],
      tempsCreated := [temp_path], tempsDeleted := [temp_path],
      tempContent := some content }
  else
    { result := .error .transferFailed, trace := readTrace ++ [cpCmd],
      tempsCreated := [temp_path], tempsDeleted := [temp_path],
      tempContent := some content }

/-- cli.py lines 180-217: the add_user command. -/
def add_user (run : List String → CmdResult) (temp_path name uuid : String) :
    OpOutcome :=
  match readAllowlistStep run with
  | .error e =>
    { result := .error e, trace := [catAllowlistCmd],
      tempsCreated := [], tempsDeleted := [], tempContent := none }
  | .ok allowlist_data =>
    match add_userCore allowlist_data name uuid with
    | .error e =>
      { result := .error e, trace := [catAllowlistCmd],
        tempsCreated := [], tempsDeleted := [], tempContent := none }
    | .ok newData =>
      publishStep run temp_path (cpToAllowlistCmd temp_path)
        (serializeAllowlist newData) [catAllowlistCmd]

/-- cli.py lines 219-256: the remove_user command. -/
def remove_user (run : List String → CmdResult) (temp_path name : String) :
    OpOutcome :=
  match readAllowlistStep run with
  | .error e =>
    { result := .error e, trace := [catAllowlistCmd],
      tempsCreated := [], tempsDeleted := [], tempContent := none }
  | .ok allowlist_data =>
    match remove_userCore allowlist_data name with
    | .error e =>
      { result := .error e, trace := [catAllowlistCmd],
        tempsCreated := [], tempsDeleted := [], tempContent := none }
    | .ok newData =>
      publishStep run temp_path (cpToAllowlistCmd temp_path)
        (serializeAllowlist newData) [catAllowlistCmd]

/-- cli.py lines 258-312: the grant command. The allowlist lookup happens
before the permission list is read, and the permission level is
validated after it. -/
def grant (run : List String → CmdResult) (temp_path name permission : String) :
    OpOutcome :=
  match readAllowlistStep run with
  | .error e =>
    { result := .error e, trace := [catAllowlistCmd],
      tempsCreated := [], tempsDeleted := [], tempContent := none }
  | .ok allowlist_data =>
    match findGrantTarget allowlist_data name with
    | none =>
      { result := .error .userLookupFailed, trace := [catAllowlistCmd],
        tempsCreated := [], tempsDeleted := [], tempContent := none }
    | some user_entry =>
      match readPermlistStep run with
      | .error e =>
        { result := .error e, trace := [catAllowlistCmd, catPermlistCmd],
          tempsCreated := [], tempsDeleted := [], tempContent := none }
      | .ok permissionlist_data =>
        match grantAfterLookup user_entry permissionlist_data permission with
        | .error e =>
          { result := .error e, trace := [catAllowlistCmd, catPermlistCmd],
            tempsCreated := [], tempsDeleted := [], tempContent := none }
        | .ok newData =>
          publishStep run temp_path (cpToPermlistCmd temp_path)
            (serializePermissionlist newData) [catAllowlistCmd, catPermlistCmd]

/-- cli.py lines 314-364: the revoke command. -/
def revoke (run : List String → CmdResult) (temp_path name : String) :
    OpOutcome :=
  match readAllowlistStep run with
  | .error e =>
    { result := .error e, trace := [catAllowlistCmd],
      tempsCreated := [], tempsDeleted := [], tempContent := none }
  | .ok allowlist_data =>
    match findGrantTarget allowlist_data name with
    | none =>
      { result := .error .userLookupFailed, trace := [catAllowlistCmd],
        tempsCreated := [], tempsDeleted := [], tempContent := none }
    | some user_entry =>
      match readPermlistStep run with
      | .error e =>
        { result := .error e, trace := [catAllowlistCmd, catPermlistCmd],
          tempsCreated := [], tempsDeleted := [], tempContent := none }
      | .ok permissionlist_data =>
        match revokeAfterLookup user_entry permissionlist_data with
        | .error e =>
          { result := .error e, trace := [catAllowlistCmd, catPermlistCmd],
            tempsCreated := [], tempsDeleted := [], tempContent := none }
        | .ok newData =>
          publishStep run temp_path (cpToPermlistCmd temp_path)
            (serializePermissionlist newData) [catAllowlistCmd, catPermlistCmd]

/-- cli.py lines 144-178: the backup command, archive then copy, aborting
on the first failure. -/
def backup (run : List String → CmdResult) (backup_name backup_dest : String) :
    OpOutcome :=
  if (run (tarCmd backup_name)).returncode == 0 then
    if (run (backupCpCmd backup_name backup_dest)).returncode == 0 then
      { result := .ok (), trace := [tarCmd backup_name, backupCpCmd backup_name backup_dest],
        tempsCreated := [], tempsDeleted := [], tempContent := none }
    else
      { result := .error .copyFailed,
        trace := [tarCmd backup_name, backupCpCmd backup_name backup_dest],
        tempsCreated := [], tempsDeleted := [], tempContent := none }
  else
    { result := .error .archiveFailed, trace := [tarCmd backup_name],
      tempsCreated := [], tempsDeleted := [], tempContent := none }

/-! ## Container file-system semantics of a trace

Only a docker cp onto one of the two list files changes that file; the
copy is all-or-nothing at the file-transfer level, so a cp whose result
reports failure leaves the file at its previous content. The content a
cp writes is the content of its local source file, supplied by the
localRead oracle. -/

/-- The files of the container data volume as an association list from
path to content; the head entry for a path shadows older ones. -/
abbrev ContainerFS := List (String × String)

/-- Content of a file, when present. -/
def getFile (fs : ContainerFS) (path : String) : Option String :=
  (fs.find? (fun pc => pc.1 == path)).map (fun pc => pc.2)

/-- Replace the content of a file. -/
def setFile (fs : ContainerFS) (path content : String) : ContainerFS :=
  (path, content) :: fs

/-- Model of exec cat inside the container: stdout is the content and the
exit status is zero exactly when the file exists. -/
def fetchContent (fs : ContainerFS) (path : String) : CmdResult :=
  match getFile fs path with
  | some content => { returncode := 0, stdout := content }
  | none => { returncode := 1, stdout := "" }

/-- Effect of one issued command on the container file system. Only a cp
onto a list file that the oracle reports as successful writes; every
other command (exec cat, exec tar into /data/backups, cp out of the
container) leaves both list files untouched. -/
def applyCmdFS (run : List String → CmdResult) (localRead : String → String)
    (fs : ContainerFS) (cmd : List String) : ContainerFS :=
  match cmd with
  | ["cp", src, dst] =>
    if (run ["cp", src, dst]).returncode == 0 then
      if dst == DOCKER_CONTAINER_NAME ++ ":/data/allowlist.json" then
        setFile fs "/data/allowlist.json" (localRead src)
      else if dst == DOCKER_CONTAINER_NAME ++ ":/data/permissionlist.json" then
        setFile fs "/data/permissionlist.json" (localRead src)
      else fs
    else fs
  | _ => fs

/-- Effect of a whole trace on the container file system. -/
def applyTrace (run : List String → CmdResult) (localRead : String → String)
    (fs : ContainerFS) (cmds : List (List String)) : ContainerFS :=
  cmds.foldl (applyCmdFS run localRead) fs

/-! ## Round trip of the serializer through the parser -/

theorem hexVal_hexDig (k : Nat) (h : k < 16) : hexVal (hexDig k) = some k := by
  interval_cases k <;> decide

theorem skipWs_nil : skipWs [] = [] := rfl

theorem skipWs_nl (l : List Char) : skipWs ('\n' :: l) = skipWs l := rfl

theorem skipWs_sp (l : List Char) : skipWs (' ' :: l) = skipWs l := rfl

theorem skipWs_quote (l : List Char) : skipWs ('"' :: l) = '"' :: l := rfl

theorem skipWs_colon (l : List Char) : skipWs (':' :: l) = ':' :: l := rfl

theorem skipWs_comma (l : List Char) : skipWs (',' :: l) = ',' :: l := rfl

theorem skipWs_lbrace (l : List Char) : skipWs ('{' :: l) = '{' :: l := rfl

theorem skipWs_rbrace (l : List Char) : skipWs ('}' :: l) = '}' :: l := rfl

theorem skipWs_lbrack (l : List Char) : skipWs ('[' :: l) = '[' :: l := rfl

theorem skipWs_rbrack (l : List Char) : skipWs (']' :: l) = ']' :: l := rfl

/-- Decoding the four hex digits the serializer wrote gives back the
value. -/
theorem decodeHex4_toHex4 (n : Nat) (rest : List Char) (hn : n < 0x10000) :
    decodeHex4 (toHex4 n ++ rest) = some (n, rest) := by
  have h1 : n / 4096 % 16 < 16 := Nat.mod_lt _ (by omega)
  have h2 : n / 256 % 16 < 16 := Nat.mod_lt _ (by omega)
  have h3 : n / 16 % 16 < 16 := Nat.mod_lt _ (by omega)
  have h4 : n % 16 < 16 := Nat.mod_lt _ (by omega)
  simp only [toHex4, List.cons_append, List.nil_append, decodeHex4,
    hexVal_hexDig _ h1, hexVal_hexDig _ h2, hexVal_hexDig _ h3, hexVal_hexDig _ h4]
  congr 2
  omega

/-- Decoding a 4-digit hex escape of a non-surrogate basic-plane value. -/
theorem decodeUEsc_toHex4 (n : Nat) (rest : List Char)
    (hv : n < 0xd800 ∨ (0xdfff < n ∧ n < 0x10000)) :
    decodeUEsc (toHex4 n ++ rest) = some (Char.ofNat n, rest) := by
  rw [decodeUEsc, decodeHex4_toHex4 n rest (by omega), Option.some_bind,
    decodeUEscCore, if_pos (by omega)]

/-- Decoding the surrogate-pair escape of a supplementary-plane value. -/
theorem decodeUEsc_surrogates (n : Nat) (rest : List Char)
    (hlo : 0x10000 ≤ n) (hhi : n < 0x110000) :
    decodeUEsc (toHex4 (0xd800 + (n - 0x10000) / 1024) ++
      ('\\' :: 'u' :: (toHex4 (0xdc00 + (n - 0x10000) % 1024) ++ rest))) =
      some (Char.ofNat n, rest) := by
  have hd : (n - 0x10000) / 1024 ≤ 0xfffff / 1024 := Nat.div_le_div_right (by omega)
  have hm := Nat.mod_lt (n - 0x10000) (show 0 < 1024 by omega)
  rw [decodeUEsc, decodeHex4_toHex4 _ _ (by omega), Option.some_bind, decodeUEscCore]
  rw [if_neg (by omega), if_pos (show 0xd800 + (n - 0x10000) / 1024 ≤ 0xdbff by omega)]
  rw [decodeLowSurrogate]
  rw [if_pos ⟨rfl, rfl⟩, decodeHex4_toHex4 _ rest (by omega), Option.some_bind]
  rw [if_pos (by constructor <;> omega)]
  have he : 0x10000 + (0xd800 + (n - 0x10000) / 1024 - 0xd800) * 1024 +
      (0xdc00 + (n - 0x10000) % 1024 - 0xdc00) = n := by
    have := Nat.div_add_mod (n - 0x10000) 1024
    omega
  rw [he]

theorem decodeEsc_quote (rest : List Char) : decodeEsc ('"' :: rest) = some ('"', rest) := rfl

theorem decodeEsc_backslash (rest : List Char) :
    decodeEsc ('\\' :: rest) = some ('\\', rest) := rfl

theorem decodeEsc_b (rest : List Char) : decodeEsc ('b' :: rest) = some ('\x08', rest) := rfl

theorem decodeEsc_f (rest : List Char) : decodeEsc ('f' :: rest) = some ('\x0c', rest) := rfl

theorem decodeEsc_n (rest : List Char) : decodeEsc ('n' :: rest) = some ('\n', rest) := rfl

theorem decodeEsc_r (rest : List Char) : decodeEsc ('r' :: rest) = some ('\r', rest) := rfl

theorem decodeEsc_t (rest : List Char) : decodeEsc ('t' :: rest) = some ('\t', rest) := rfl

theorem decodeEsc_u (rest : List Char) : decodeEsc ('u' :: rest) = decodeUEsc rest := rfl

/-- Parsing the escape the serializer wrote for one character consumes it
whole and yields that character. -/
theorem parseStrBody_escChar (c : Char) (rest : List Char) (fuel : Nat) :
    parseStrBody (fuel + 1) (escChar c ++ rest) =
      (parseStrBody fuel rest).map (fun q => (c :: q.1, q.2)) := by
  have hvalid : c.toNat < 0xd800 ∨ (0xdfff < c.toNat ∧ c.toNat < 0x110000) := by
    rcases c.valid with h | h
    · exact Or.inl h
    · exact Or.inr h
  unfold escChar
  split_ifs with h1 h2 h3 h4 h5 h6 h7 h8 h9
  · subst h1
    simp only [List.append_eq, List.cons_append, List.nil_append, parseStrBody,
      reduceIte, decodeEsc_quote, Option.some_bind]
    simp
  · subst h2
    simp only [List.append_eq, List.cons_append, List.nil_append, parseStrBody,
      reduceIte, decodeEsc_backslash, Option.some_bind]
    simp
  · subst h3
    simp only [List.append_eq, List.cons_append, List.nil_append, parseStrBody,
      reduceIte, decodeEsc_b, Option.some_bind]
    simp
  · subst h4
    simp only [List.append_eq, List.cons_append, List.nil_append, parseStrBody,
      reduceIte, decodeEsc_t, Option.some_bind]
    simp
  · subst h5
    simp only [List.append_eq, List.cons_append, List.nil_append, parseStrBody,
      reduceIte, decodeEsc_n, Option.some_bind]
    simp
  · subst h6
    simp only [List.append_eq, List.cons_append, List.nil_append, parseStrBody,
      reduceIte, decodeEsc_f, Option.some_bind]
    simp
  · subst h7
    simp only [List.append_eq, List.cons_append, List.nil_append, parseStrBody,
      reduceIte, decodeEsc_r, Option.some_bind]
    simp
  · simp only [List.append_eq, List.cons_append, List.nil_append, parseStrBody]
    rw [if_neg h1, if_neg h2, if_neg (show ¬c.toNat < 0x20 by omega)]
  · simp only [List.append_eq, List.cons_append, List.nil_append, List.append_assoc,
      parseStrBody, reduceIte, decodeEsc_u]
    rw [decodeUEsc_toHex4 c.toNat rest (by omega), Option.some_bind, Char.ofNat_toNat]
    simp
  · simp only [List.append_eq, List.cons_append, List.nil_append, List.append_assoc,
      parseStrBody, reduceIte, decodeEsc_u]
    rw [decodeUEsc_surrogates c.toNat rest (by omega) (by omega), Option.some_bind,
      Char.ofNat_toNat]
    simp

theorem length_le_escChar (c : Char) : 1 ≤ (escChar c).length := by
  unfold escChar
  split_ifs <;> simp [toHex4]

theorem length_le_escape (s : List Char) : s.length ≤ (s.flatMap escChar).length := by
  induction s with
  | nil => simp
  | cons c s ih =>
    simp only [List.flatMap_cons, List.length_append, List.length_cons]
    have := length_le_escChar c
    omega

/-- Parsing an escaped body plus closing quote returns the original
characters, at any fuel of at least the character count. -/
theorem parseStrBody_escape (s : List Char) (rest : List Char) (fuel : Nat) :
    parseStrBody (s.length + fuel + 1) (s.flatMap escChar ++ ('"' :: rest)) =
      some (s, rest) := by
  induction s generalizing fuel with
  | nil =>
    simp only [List.flatMap_nil, List.nil_append, List.length_nil, Nat.zero_add]
    rw [parseStrBody, if_pos rfl]
  | cons c s ih =>
    simp only [List.flatMap_cons, List.append_assoc, List.length_cons]
    have he : s.length + 1 + fuel + 1 = (s.length + fuel + 1) + 1 := by omega
    rw [he, parseStrBody_escChar c _ (s.length + fuel + 1), ih fuel]
    rfl

/-- A serialized string literal parses back to the original string. -/
theorem parseJString_serStr (k : String) (rest : List Char) :
    parseJString (serStr k ++ rest) = some (k, rest) := by
  have hlen := length_le_escape k.data
  have hs : serStr k ++ rest = '"' :: (k.data.flatMap escChar ++ ('"' :: rest)) := by
    simp [serStr, escStr, List.append_assoc]
  rw [hs, parseJString, if_pos rfl]
  have he : (k.data.flatMap escChar ++ ('"' :: rest)).length + 1 =
      k.data.length + ((k.data.flatMap escChar).length - k.data.length + rest.length + 1) + 1 := by
    simp only [List.length_append, List.length_cons]
    omega
  rw [he, parseStrBody_escape]
  rfl

theorem skipWs_cons_of_ws (c : Char) (h : isWsChar c = true) (l : List Char) :
    skipWs (c :: l) = skipWs l := by
  simp [skipWs, h]

theorem skipWs_ws_append (pre : List Char) (hpre : ∀ c ∈ pre, isWsChar c = true)
    (l : List Char) : skipWs (pre ++ l) = skipWs l := by
  induction pre with
  | nil => simp
  | cons c pre ih =>
    rw [List.cons_append, skipWs_cons_of_ws c (hpre c (by simp)) (pre ++ l)]
    exact ih (fun d hd => hpre d (by simp [hd]))

theorem skipWs_serStr (s : String) (rest : List Char) :
    skipWs (serStr s ++ rest) = serStr s ++ rest := by
  have h : serStr s ++ rest = '"' :: ((escStr s ++ ['"']) ++ rest) := by
    simp [serStr, List.append_assoc]
  rw [h, skipWs_quote]

theorem skipWs_serMembers (k v : String) (r : List (String × String)) (rest : List Char) :
    skipWs (serMembers ((k, v) :: r) ++ rest) = serMembers ((k, v) :: r) ++ rest := by
  cases r with
  | nil =>
    have h : serMembers [(k, v)] ++ rest =
        serStr k ++ ((':' :: ' ' :: serStr v) ++ rest) := by
      simp [serMembers, List.append_assoc]
    rw [h, skipWs_serStr, ← h]
  | cons p r =>
    have h : serMembers ((k, v) :: p :: r) ++ rest =
        serStr k ++ (((':' :: ' ' :: serStr v) ++ ((',' :: '\n' :: sp4) ++ serMembers (p :: r))) ++ rest) := by
      obtain ⟨k2, v2⟩ := p
      simp [serMembers, List.append_assoc]
    rw [h, skipWs_serStr, ← h]

theorem serStr_length (s : String) : (serStr s).length = (escStr s).length + 2 := by
  simp [serStr]

theorem serMembers_length_ge (fs : List (String × String)) :
    fs.length ≤ (serMembers fs).length := by
  induction fs with
  | nil => simp [serMembers]
  | cons p fs ih =>
    obtain ⟨k, v⟩ := p
    cases fs with
    | nil =>
      simp [serMembers, serStr_length]
      omega
    | cons q r =>
      obtain ⟨k2, v2⟩ := q
      simp only [serMembers, List.length_append, List.length_cons, sp4,
        serStr_length, List.length_nil] at *
      omega

/-- A serialized member list followed by the closing newline, indent and
brace parses back to the original fields. -/
theorem parseMembers_serMembers (r : List (String × String)) :
    ∀ (k v : String) (fuel : Nat) (rest : List Char),
    parseMembers (r.length + fuel + 1)
      (serMembers ((k, v) :: r) ++ ('\n' :: (sp2 ++ ('}' :: rest)))) =
      some ((k, v) :: r, rest) := by
  induction r with
  | nil =>
    intro k v fuel rest
    have h : serMembers [(k, v)] ++ ('\n' :: (sp2 ++ ('}' :: rest))) =
        serStr k ++ (':' :: (' ' :: (serStr v ++
          ('\n' :: (' ' :: (' ' :: ('}' :: rest))))))) := by
      simp [serMembers, sp2, List.append_assoc]
    simp only [List.length_nil, Nat.zero_add]
    rw [h, parseMembers]
    simp only [parseJString_serStr, Option.some_bind, skipWs_colon, skipWs_sp,
      skipWs_serStr, skipWs_nl, skipWs_rbrace, reduceIte]
    simp
  | cons p r ih =>
    obtain ⟨k2, v2⟩ := p
    intro k v fuel rest
    have h : serMembers ((k, v) :: (k2, v2) :: r) ++ ('\n' :: (sp2 ++ ('}' :: rest))) =
        serStr k ++ (':' :: (' ' :: (serStr v ++ (',' :: ('\n' :: (' ' :: (' ' :: (' ' :: (' ' ::
          (serMembers ((k2, v2) :: r) ++ ('\n' :: (sp2 ++ ('}' :: rest))))))))))))) := by
      simp [serMembers, sp4, List.append_assoc]
    have hf : ((k2, v2) :: r).length + fuel + 1 = (r.length + fuel + 1) + 1 := by
      simp only [List.length_cons]
      omega
    rw [h, hf, parseMembers]
    simp only [parseJString_serStr, Option.some_bind, skipWs_colon, skipWs_sp,
      skipWs_serStr, skipWs_comma, skipWs_nl, skipWs_serMembers, reduceIte]
    rw [ih k2 v2 fuel rest]
    rfl

theorem serMembers_cons_expand (k v : String) (r : List (String × String)) :
    ∃ t, serMembers ((k, v) :: r) = serStr k ++ t := by
  cases r with
  | nil => exact ⟨':' :: ' ' :: serStr v, rfl⟩
  | cons p r =>
    obtain ⟨a, b⟩ := p
    exact ⟨(':' :: ' ' :: serStr v) ++ ((',' :: '\n' :: sp4) ++ serMembers ((a, b) :: r)),
      by simp [serMembers, List.append_assoc]⟩

theorem serMembers_head_ex (k v : String) (r : List (String × String)) (tail : List Char) :
    ∃ z, serMembers ((k, v) :: r) ++ tail = '"' :: z := by
  obtain ⟨t, ht⟩ := serMembers_cons_expand k v r
  refine ⟨(escStr k ++ ['"']) ++ (t ++ tail), ?_⟩
  rw [ht]
  simp [serStr, List.append_assoc]

theorem serObj_head_ex (fs : List (String × String)) (tail : List Char) :
    ∃ z, serObj fs ++ tail = '{' :: z := by
  cases fs with
  | nil => exact ⟨'}' :: tail, by simp [serObj]⟩
  | cons p r =>
    refine ⟨'\n' :: (sp4 ++ (serMembers (p :: r) ++ ('\n' :: (sp2 ++ ('}' :: tail))))), ?_⟩
    obtain ⟨k, v⟩ := p
    simp [serObj, List.append_assoc]

/-- A serialized object, optionally preceded by whitespace, parses back to
its field list. -/
theorem parseObject_ser (pre : List Char) (hpre : ∀ c ∈ pre, isWsChar c = true)
    (fs : List (String × String)) (rest : List Char) :
    parseObject (pre ++ (serObj fs ++ rest)) = some (fs, rest) := by
  rw [parseObject, skipWs_ws_append pre hpre]
  cases fs with
  | nil =>
    have h : serObj ([] : List (String × String)) ++ rest = '{' :: ('}' :: rest) := by
      simp [serObj]
    rw [h, skipWs_lbrace]
    simp only [reduceIte, skipWs_rbrace]
  | cons p r =>
    obtain ⟨k, v⟩ := p
    have h : serObj ((k, v) :: r) ++ rest =
        '{' :: ('\n' :: (' ' :: (' ' :: (' ' :: (' ' ::
          (serMembers ((k, v) :: r) ++ ('\n' :: (sp2 ++ ('}' :: rest))))))))) := by
      simp [serObj, sp4, List.append_assoc]
    rw [h, skipWs_lbrace]
    simp only [reduceIte, skipWs_nl, skipWs_sp, skipWs_serMembers]
    obtain ⟨z, hz⟩ := serMembers_head_ex k v r ('\n' :: (sp2 ++ ('}' :: rest)))
    rw [hz]
    simp only [reduceIte]
    rw [← hz]
    have hb := serMembers_length_ge ((k, v) :: r)
    have hf : (serMembers ((k, v) :: r) ++ ('\n' :: (sp2 ++ ('}' :: rest)))).length + 1 =
        r.length + ((serMembers ((k, v) :: r)).length - r.length - 1 +
          ('\n' :: (sp2 ++ ('}' :: rest))).length + 1) + 1 := by
      simp only [List.length_append, List.length_cons] at *
      omega
    rw [hf, parseMembers_serMembers r k v _ rest]
    simp

theorem serObj_length_pos (fs : List (String × String)) : 1 ≤ (serObj fs).length := by
  cases fs with
  | nil => simp [serObj]
  | cons p r =>
    obtain ⟨k, v⟩ := p
    simp [serObj]

theorem serItems_length_ge (objs : List (List (String × String))) :
    objs.length ≤ (serItems (objs.map serObj)).length := by
  induction objs with
  | nil => simp [serItems]
  | cons o objs ih =>
    cases objs with
    | nil =>
      simp only [List.map_cons, List.map_nil, serItems, List.length_cons, List.length_nil]
      have := serObj_length_pos o
      omega
    | cons o2 r =>
      simp only [List.map_cons, serItems, List.length_append, List.length_cons] at *
      have := serObj_length_pos o
      omega

theorem serItems_head_ex (o : List (String × String))
    (objs : List (List (String × String))) (tail : List Char) :
    ∃ z, serItems ((o :: objs).map serObj) ++ tail = '\x7b' :: z := by
  cases objs with
  | nil =>
    simp only [List.map_cons, List.map_nil, serItems]
    exact serObj_head_ex o tail
  | cons o2 r =>
    simp only [List.map_cons, serItems, List.append_assoc]
    exact serObj_head_ex o _

/-- Items of a serialized array, preceded by the newline and two-space
indent and followed by the closing newline and bracket, parse back to the
original objects. -/
theorem parseItems_ser (objs : List (List (String × String))) :
    ∀ (o : List (String × String)) (fuel : Nat) (rest : List Char),
    parseItems (objs.length + fuel + 1)
      ('\n' :: (sp2 ++ (serItems ((o :: objs).map serObj) ++ ('\n' :: (']' :: rest))))) =
      some (o :: objs, rest) := by
  induction objs with
  | nil =>
    intro o fuel rest
    simp only [List.map_cons, List.map_nil, serItems, List.length_nil, Nat.zero_add]
    rw [show ('\n' :: (sp2 ++ (serObj o ++ ('\n' :: (']' :: rest))))) =
      ('\n' :: sp2) ++ (serObj o ++ ('\n' :: (']' :: rest))) from by simp [sp2]]
    rw [parseItems, parseObject_ser ('\n' :: sp2) (by decide) o ('\n' :: (']' :: rest))]
    simp only [Option.some_bind, skipWs_nl, skipWs_rbrack, reduceIte]
    simp
  | cons o2 objs ih =>
    intro o fuel rest
    have h : ('\n' :: (sp2 ++ (serItems ((o :: o2 :: objs).map serObj) ++
        ('\n' :: (']' :: rest))))) =
        ('\n' :: sp2) ++ (serObj o ++ (',' :: ('\n' :: (sp2 ++
          (serItems ((o2 :: objs).map serObj) ++ ('\n' :: (']' :: rest))))))) := by
      simp [serItems, List.append_assoc]
    have hf : (o2 :: objs).length + fuel + 1 = (objs.length + fuel + 1) + 1 := by
      simp only [List.length_cons]
      omega
    rw [h, hf, parseItems,
      parseObject_ser ('\n' :: sp2) (by decide) o _]
    simp only [Option.some_bind, skipWs_comma, reduceIte]
    rw [ih o2 fuel rest]
    simp

theorem serObjArray_length_nonempty (o : List (String × String))
    (objs : List (List (String × String))) :
    serObjArray (o :: objs) =
      '[' :: ('\n' :: (sp2 ++ (serItems ((o :: objs).map serObj) ++
        ('\n' :: (']' :: ([] : List Char)))))) := by
  simp [serObjArray, List.append_assoc]

/-- A serialized array of objects parses back to the original objects. -/
theorem parseObjArray_ser (objs : List (List (String × String))) :
    parseObjArray (String.mk (serObjArray objs)) = some objs := by
  cases objs with
  | nil => decide
  | cons o objs =>
    rw [parseObjArray]
    have hd : (String.mk (serObjArray (o :: objs))).data = serObjArray (o :: objs) := rfl
    rw [hd, serObjArray_length_nonempty o objs, skipWs_lbrack]
    simp only [reduceIte, skipWs_nl]
    rw [skipWs_ws_append sp2 (by decide)]
    obtain ⟨z, hz⟩ := serItems_head_ex o objs ('\n' :: (']' :: ([] : List Char)))
    rw [hz, skipWs_lbrace]
    dsimp only
    rw [if_neg (by decide), ← hz]
    have hb := serItems_length_ge (o :: objs)
    have hf : ('\n' :: (sp2 ++ (serItems ((o :: objs).map serObj) ++
        ('\n' :: (']' :: ([] : List Char)))))).length + 1 =
        objs.length + ((serItems ((o :: objs).map serObj)).length - objs.length + 5) + 1 := by
      simp only [List.length_cons, List.length_append, List.length_nil, sp2] at hb ⊢
      omega
    rw [hf, parseItems_ser objs o _ []]
    simp [skipWs_nil]

theorem entryOfFields_entryFields (e : AllowlistEntry) :
    entryOfFields (entryFields e) = some e := by
  obtain ⟨n, u, x⟩ := e
  cases x <;> simp [entryOfFields, entryFields, lookupField]

/-- The full document round trip for the allowlist. -/
theorem parseAllowlist_serializeAllowlist (l : List AllowlistEntry) :
    parseAllowlist (serializeAllowlist l) = some l := by
  unfold parseAllowlist serializeAllowlist
  rw [parseObjArray_ser]
  show (l.map entryFields).mapM entryOfFields = some l
  induction l with
  | nil => rfl
  | cons e l ih =>
    simp only [List.map_cons, List.mapM_cons, entryOfFields_entryFields, ih]
    rfl

theorem permEntryOfFields_permEntryFields (e : PermissionEntry) :
    permEntryOfFields (permEntryFields e) = e := by
  obtain ⟨x, p⟩ := e
  cases x <;> cases p <;> simp [permEntryOfFields, permEntryFields, lookupField]

/-- The full document round trip for the permission list. -/
theorem parsePermissionlist_serializePermissionlist (l : List PermissionEntry) :
    parsePermissionlist (serializePermissionlist l) = some l := by
  unfold parsePermissionlist serializePermissionlist
  rw [parseObjArray_ser]
  show some ((l.map permEntryFields).map permEntryOfFields) = some l
  induction l with
  | nil => rfl
  | cons e l ih =>
    simp only [List.map_cons, permEntryOfFields_permEntryFields,
      Option.some.injEq, List.cons.injEq] at ih ⊢
    simpa using ih

theorem getFile_setFile (fs : ContainerFS) (path content : String) :
    getFile (setFile fs path content) path = some content := by
  simp [getFile, setFile, List.find?_cons_of_pos]

theorem getFile_setFile_ne (fs : ContainerFS) (path content other : String)
    (h : path ≠ other) : getFile (setFile fs path content) other = getFile fs other := by
  simp only [getFile, setFile]
  rw [List.find?_cons_of_neg]
  simp [h]

/-! ## Supporting lemmas about the cores -/

theorem filter_length_eq_iff {α : Type} (l : List α) (p : α → Bool) :
    (l.filter p).length = l.length ↔ ∀ a ∈ l, p a = true := by
  constructor
  · intro h
    have he : l.filter p = l := (List.filter_sublist l).eq_of_length h
    intro a ha
    exact List.filter_eq_self.mp he a ha
  · intro h
    rw [List.filter_eq_self.mpr h]

theorem findGrantTarget_none_iff (allow : List AllowlistEntry) (name : String) :
    findGrantTarget allow name = none ↔ ∀ u ∈ allow, u.name = name → u.xuid = none := by
  unfold findGrantTarget
  rw [List.find?_eq_none]
  constructor
  · intro h u hu hname
    have hn := h u hu
    simp only [Bool.and_eq_true, beq_iff_eq, not_and] at hn
    have hx := hn hname
    cases hxu : u.xuid with
    | none => rfl
    | some x =>
      rw [hxu] at hx
      simp at hx
  · intro h u hu
    simp only [Bool.and_eq_true, beq_iff_eq, Option.isSome_iff_exists, not_and]
    intro hname
    rw [h u hu hname]
    simp

theorem grantCore_none (allow : List AllowlistEntry) (perms : List PermissionEntry)
    (name lvl : String) (h : findGrantTarget allow name = none) :
    grantCore allow perms name lvl = .error .userLookupFailed := by
  unfold grantCore
  rw [h]

theorem grantCore_some (allow : List AllowlistEntry) (perms : List PermissionEntry)
    (name lvl : String) (u : AllowlistEntry) (h : findGrantTarget allow name = some u) :
    grantCore allow perms name lvl = grantAfterLookup u perms lvl := by
  unfold grantCore
  rw [h]

theorem revokeCore_none (allow : List AllowlistEntry) (perms : List PermissionEntry)
    (name : String) (h : findGrantTarget allow name = none) :
    revokeCore allow perms name = .error .userLookupFailed := by
  unfold revokeCore
  rw [h]

theorem revokeCore_some (allow : List AllowlistEntry) (perms : List PermissionEntry)
    (name : String) (u : AllowlistEntry) (h : findGrantTarget allow name = some u) :
    revokeCore allow perms name = revokeAfterLookup u perms := by
  unfold revokeCore
  rw [h]

/-! ## The claims -/

/-- C1 (amended): grant fails with the single lookup error exactly when no
allowlist entry carries the requested name together with a populated
xuid — an absent entry and an entry whose xuid is absent produce the same
error; when the lookup succeeds, grant fails with the distinct
InvalidPermission error exactly when the level does not case-insensitively
match one of the four recognized levels; only those two error kinds are
distinguishable. -/
theorem C1_grant_error_kinds (allow : List AllowlistEntry)
    (perms : List PermissionEntry) (name lvl : String) :
    (grantCore allow perms name lvl = .error .userLookupFailed ↔
      findGrantTarget allow name = none) ∧
    (findGrantTarget allow name = none ↔ ∀ u ∈ allow, u.name = name → u.xuid = none) ∧
    (∀ u, findGrantTarget allow name = some u →
      (grantCore allow perms name lvl = .error .invalidPermission ↔
        isRecognizedPermission lvl = false)) ∧
    (isRecognizedPermission lvl =
      ("visitor" == lowerStr lvl || ("member" == lowerStr lvl ||
        ("operator" == lowerStr lvl || "admin" == lowerStr lvl)))) ∧
    CliError.userLookupFailed ≠ CliError.invalidPermission := by
  refine ⟨?_, findGrantTarget_none_iff allow name, ?_, ?_, by decide⟩
  · unfold grantCore
    cases hf : findGrantTarget allow name with
    | none => simp
    | some u =>
      simp only [reduceCtorEq, iff_false]
      unfold grantAfterLookup
      split <;> simp
  · intro u hu
    unfold grantCore
    rw [hu]
    unfold grantAfterLookup
    cases hr : isRecognizedPermission lvl <;> simp
  · simp [isRecognizedPermission, PermissionLevel.all, PermissionLevel.value,
      List.any_cons, List.any_nil, Bool.or_assoc]

/-- C1 counterexample to the claim as stated: an allowlist with no entry
named alice and an allowlist whose alice entry has no xuid produce the
very same error value, so UserNotFound and UserNotConnected are not
distinct errors of the code. -/
theorem C1_counterexample :
    grantCore [] [] "alice" "member" = .error .userLookupFailed ∧
    grantCore [{ name := "alice", uuid := "u1", xuid := none }] [] "alice" "member" =
      .error .userLookupFailed := by
  constructor <;> rfl

theorem C1_witness :
    (grantCore [{ name := "alice", uuid := "u1", xuid := some "x1" }] [] "alice" "superadmin" =
        .error .invalidPermission ↔ isRecognizedPermission "superadmin" = false) :=
  (C1_grant_error_kinds [{ name := "alice", uuid := "u1", xuid := some "x1" }] [] "alice"
    "superadmin").2.2.1 { name := "alice", uuid := "u1", xuid := some "x1" } (by decide)

/-- C5: revoke fails with the lookup error exactly when the name resolves
to no allowlist entry with a populated xuid; when it resolves, revoke
removes every permission entry carrying that xuid and fails with
UserNotInPermissionList exactly when no entry carried it; consequently a
successful grant makes one revoke succeed with all grants of that xuid
gone and a second revoke fail with UserNotInPermissionList. -/
theorem C5_revoke_correct (allow : List AllowlistEntry)
    (perms : List PermissionEntry) (name : String) :
    (revokeCore allow perms name = .error .userLookupFailed ↔
      findGrantTarget allow name = none) ∧
    (∀ u, findGrantTarget allow name = some u →
      ((revokeCore allow perms name = .error .userNotInPermissionList ↔
         ∀ e ∈ perms, e.xuid ≠ u.xuid) ∧
       (∀ out, revokeCore allow perms name = .ok out →
         out = perms.filter (fun e => e.xuid != u.xuid)))) ∧
    (∀ lvl perms1, grantCore allow perms name lvl = .ok perms1 →
      ∃ perms2, revokeCore allow perms1 name = .ok perms2 ∧
        revokeCore allow perms2 name = .error .userNotInPermissionList) := by
  refine ⟨?_, ?_, ?_⟩
  · cases hf : findGrantTarget allow name with
    | none => simp [revokeCore_none allow perms name hf]
    | some u =>
      rw [revokeCore_some allow perms name u hf]
      simp only [reduceCtorEq, iff_false]
      unfold revokeAfterLookup
      split
      · simp
      · simp
  · intro u hu
    rw [revokeCore_some allow perms name u hu]
    unfold revokeAfterLookup
    constructor
    · split <;> rename_i hlen
      · constructor
        · intro _
          simp only [beq_iff_eq] at hlen
          intro e he
          have := (filter_length_eq_iff perms (fun e => e.xuid != u.xuid)).mp hlen e he
          simpa using this
        · intro _
          rfl
      · constructor
        · intro h
          exact Except.noConfusion h
        · intro hall
          exfalso
          simp only [beq_iff_eq] at hlen
          exact hlen ((filter_length_eq_iff perms (fun e => e.xuid != u.xuid)).mpr
            (fun e he => by simpa using hall e he))
    · intro out hout
      split at hout
      · exact Except.noConfusion hout
      · simp only [Except.ok.injEq] at hout
        exact hout.symm
  · intro lvl perms1 hg
    cases hf : findGrantTarget allow name with
    | none =>
      rw [grantCore_none allow perms name lvl hf] at hg
      exact Except.noConfusion hg
    | some u =>
      rw [grantCore_some allow perms name lvl u hf] at hg
      unfold grantAfterLookup at hg
      split at hg
      · exact Except.noConfusion hg
      · simp only [Except.ok.injEq] at hg
        subst hg
        have hxs : u.xuid.isSome = true := by
          have := List.find?_some hf
          simp only [Bool.and_eq_true] at this
          exact this.2
        refine ⟨(perms ++
            [({ xuid := u.xuid, permission := some (lowerStr lvl) } : PermissionEntry)]).filter
          (fun e => e.xuid != u.xuid), ?_, ?_⟩
        · rw [revokeCore_some allow _ name u hf]
          unfold revokeAfterLookup
          rw [if_neg ?hne]
          case hne =>
            simp only [beq_iff_eq]
            intro hlen
            have hle := List.length_filter_le (fun e => e.xuid != u.xuid) perms
            simp only [List.filter_append, List.length_append, List.filter_cons,
              bne_self_eq_false, List.filter_nil, List.length_cons] at hlen
            simp at hlen
            omega
        · rw [revokeCore_some allow _ name u hf]
          unfold revokeAfterLookup
          rw [if_pos ?heq]
          case heq =>
            simp only [beq_iff_eq]
            rw [List.filter_filter]
            congr 1
            apply List.filter_congr
            intro e he
            simp [Bool.and_self]

theorem C5_witness :
    ∃ perms2, revokeCore [{ name := "alice", uuid := "u1", xuid := some "x1" }] 
        [{ xuid := some "x1", permission := some "operator" }] "alice" = .ok perms2 ∧
      revokeCore [{ name := "alice", uuid := "u1", xuid := some "x1" }] perms2 "alice" =
        .error .userNotInPermissionList :=
  (C5_revoke_correct [{ name := "alice", uuid := "u1", xuid := some "x1" }] [] "alice").2.2
    "operator" [{ xuid := some "x1", permission := some "operator" }] (by decide)

/-- C6: a successful grant appends exactly one record, holding the
resolved xuid and the lowercased level, at the tail of the permission
list, with no check against existing grants — the uppercase and lowercase
spellings of a level produce identical calls, and granting again after a
successful grant appends the same record a second time. -/
theorem C6_grant_appends (allow : List AllowlistEntry)
    (perms : List PermissionEntry) (name lvl : String) :
    (∀ out, grantCore allow perms name lvl = .ok out →
      ∃ u, findGrantTarget allow name = some u ∧
        out = perms ++ [{ xuid := u.xuid, permission := some (lowerStr lvl) }]) ∧
    grantCore allow perms name "ADMIN" = grantCore allow perms name "admin" ∧
    (∀ out, grantCore allow perms name lvl = .ok out →
      ∃ u, findGrantTarget allow name = some u ∧
        grantCore allow out name lvl =
          .ok (out ++ [{ xuid := u.xuid, permission := some (lowerStr lvl) }])) := by
  have hok : ∀ (ps : List PermissionEntry) (out : List PermissionEntry),
      grantCore allow ps name lvl = .ok out →
      ∃ u, findGrantTarget allow name = some u ∧
        out = ps ++ [{ xuid := u.xuid, permission := some (lowerStr lvl) }] := by
    intro ps out hg
    cases hf : findGrantTarget allow name with
    | none =>
      rw [grantCore_none allow ps name lvl hf] at hg
      exact Except.noConfusion hg
    | some u =>
      rw [grantCore_some allow ps name lvl u hf] at hg
      unfold grantAfterLookup at hg
      split at hg
      · exact Except.noConfusion hg
      · simp only [Except.ok.injEq] at hg
        exact ⟨u, rfl, hg.symm⟩
  refine ⟨hok perms, ?_, ?_⟩
  · cases hf : findGrantTarget allow name with
    | none =>
      rw [grantCore_none allow perms name "ADMIN" hf,
        grantCore_none allow perms name "admin" hf]
    | some u =>
      rw [grantCore_some allow perms name "ADMIN" u hf,
        grantCore_some allow perms name "admin" u hf]
      unfold grantAfterLookup
      rw [show isRecognizedPermission "ADMIN" = true from by decide,
        show isRecognizedPermission "admin" = true from by decide,
        show lowerStr "ADMIN" = "admin" from by decide,
        show lowerStr "admin" = "admin" from by decide]
  · intro out hg
    obtain ⟨u, hf, hout⟩ := hok perms out hg
    refine ⟨u, hf, ?_⟩
    rw [grantCore_some allow out name lvl u hf]
    unfold grantAfterLookup
    rw [if_neg ?hrec]
    case hrec =>
      cases hr : isRecognizedPermission lvl with
      | true => simp
      | false =>
        exfalso
        rw [grantCore_some allow perms name lvl u hf] at hg
        unfold grantAfterLookup at hg
        rw [hr] at hg
        exact Except.noConfusion hg

theorem C6_witness :
    grantCore [{ name := "alice", uuid := "u1", xuid := some "x1" }]
        [{ xuid := some "x1", permission := some "admin" }] "alice" "ADMIN" =
      .ok [{ xuid := some "x1", permission := some "admin" },
        { xuid := some "x1", permission := some "admin" }] := by
  have h := (C6_grant_appends [{ name := "alice", uuid := "u1", xuid := some "x1" }]
    [] "alice" "ADMIN").2.2 [{ xuid := some "x1", permission := some "admin" }] (by decide)
  obtain ⟨u, hu, hg⟩ := h
  have hueq : u = { name := "alice", uuid := "u1", xuid := some "x1" } := by
    rw [show findGrantTarget [{ name := "alice", uuid := "u1", xuid := some "x1" }] "alice" =
      some { name := "alice", uuid := "u1", xuid := some "x1" } from by decide] at hu
    exact ((Option.some.injEq _ _).mp hu).symm
  rw [hueq] at hg
  simpa [show lowerStr "ADMIN" = "admin" from by decide] using hg

/-- C3: add fails with DuplicateUser exactly when an existing entry shares
the name or the uuid (exact, case-sensitive match); otherwise it appends
the record with absent xuid at the tail, so the no-duplicate invariant is
preserved; the full command publishes the serialization of the appended
list. -/
theorem C3_add_user_correct (allow : List AllowlistEntry) (name uuid : String) :
    (add_userCore allow name uuid = .error .duplicateUser ↔
      ∃ u ∈ allow, u.name = name ∨ u.uuid = uuid) ∧
    ((∀ u ∈ allow, u.name ≠ name ∧ u.uuid ≠ uuid) →
      add_userCore allow name uuid =
        .ok (allow ++ [{ name := name, uuid := uuid, xuid := none }])) ∧
    (∀ out, add_userCore allow name uuid = .ok out → allowlistInv allow → allowlistInv out) ∧
    (∀ run temp_path out, readAllowlistStep run = .ok allow →
      add_userCore allow name uuid = .ok out →
      (add_user run temp_path name uuid).tempContent = some (serializeAllowlist out)) := by
  have hdup : (allow.any (fun u => u.name == name || u.uuid == uuid) = true) ↔
      ∃ u ∈ allow, u.name = name ∨ u.uuid = uuid := by
    simp [List.any_eq_true]
  refine ⟨?_, ?_, ?_, ?_⟩
  · unfold add_userCore
    split <;> rename_i h
    · exact ⟨fun _ => hdup.mp h, fun _ => rfl⟩
    · constructor
      · intro he
        exact Except.noConfusion he
      · intro hex
        exact absurd (hdup.mpr hex) h
  · intro hno
    unfold add_userCore
    rw [if_neg ?hneg]
    case hneg =>
      intro hany
      obtain ⟨u, hu, hor⟩ := hdup.mp hany
      rcases hor with h1 | h2
      · exact (hno u hu).1 h1
      · exact (hno u hu).2 h2
  · intro out hout hinv
    unfold add_userCore at hout
    split at hout
    · exact Except.noConfusion hout
    · rename_i h
      simp only [Except.ok.injEq] at hout
      subst hout
      simp only [List.any_eq_true, Bool.or_eq_true, beq_iff_eq, not_exists, not_or] at h
      push_neg at h
      obtain ⟨h1, h2⟩ := hinv
      constructor
      · simp only [allowlistInv, List.map_append, List.map_cons, List.map_nil] at *
        rw [List.nodup_append]
        refine ⟨h1, List.nodup_singleton _, ?_⟩
        intro a ha
        simp only [List.mem_singleton]
        intro hb
        subst hb
        obtain ⟨u, hu, hname⟩ := List.mem_map.mp ha
        exact absurd hname ((h u hu).1)
      · simp only [List.map_append, List.map_cons, List.map_nil]
        rw [List.nodup_append]
        refine ⟨h2, List.nodup_singleton _, ?_⟩
        intro a ha
        simp only [List.mem_singleton]
        intro hb
        subst hb
        obtain ⟨u, hu, huuid⟩ := List.mem_map.mp ha
        exact absurd huuid ((h u hu).2)
  · intro run temp_path out hread hcore
    unfold add_user
    rw [hread]
    simp only [hcore]
    unfold publishStep
    split <;> rfl

theorem C3_witness :
    add_userCore [{ name := "alice", uuid := "u1", xuid := some "x1" }] "bob" "u2" =
      .ok [{ name := "alice", uuid := "u1", xuid := some "x1" },
        { name := "bob", uuid := "u2", xuid := none }] :=
  (C3_add_user_correct [{ name := "alice", uuid := "u1", xuid := some "x1" }]
    "bob" "u2").2.1 (by decide)

/-! ## Effect lemmas for the container file system -/

theorem applyCmdFS_catAllow (run : List String → CmdResult) (lr : String → String)
    (fs : ContainerFS) : applyCmdFS run lr fs catAllowlistCmd = fs := rfl

theorem applyCmdFS_catPerm (run : List String → CmdResult) (lr : String → String)
    (fs : ContainerFS) : applyCmdFS run lr fs catPermlistCmd = fs := rfl

theorem applyCmdFS_cpAllow (run : List String → CmdResult) (lr : String → String)
    (fs : ContainerFS) (temp_path : String) :
    applyCmdFS run lr fs (cpToAllowlistCmd temp_path) =
      if (run (cpToAllowlistCmd temp_path)).returncode == 0 then
        setFile fs "/data/allowlist.json" (lr temp_path)
      else fs := by
  simp only [applyCmdFS, cpToAllowlistCmd, beq_self_eq_true, if_true]

theorem applyCmdFS_cpPerm (run : List String → CmdResult) (lr : String → String)
    (fs : ContainerFS) (temp_path : String) :
    applyCmdFS run lr fs (cpToPermlistCmd temp_path) =
      if (run (cpToPermlistCmd temp_path)).returncode == 0 then
        setFile fs "/data/permissionlist.json" (lr temp_path)
      else fs := by
  have hne : (DOCKER_CONTAINER_NAME ++ ":/data/permissionlist.json" ==
      DOCKER_CONTAINER_NAME ++ ":/data/allowlist.json") = false := by decide
  simp only [applyCmdFS, cpToPermlistCmd, hne, Bool.false_eq_true, if_false,
    beq_self_eq_true, if_true]

theorem getFile_applyCmdFS_cpAllow_perm (run : List String → CmdResult)
    (lr : String → String) (fs : ContainerFS) (temp_path : String) :
    getFile (applyCmdFS run lr fs (cpToAllowlistCmd temp_path)) "/data/permissionlist.json" =
      getFile fs "/data/permissionlist.json" := by
  rw [applyCmdFS_cpAllow]
  split
  · exact getFile_setFile_ne fs _ _ _ (by decide)
  · rfl

theorem getFile_applyCmdFS_cpPerm_allow (run : List String → CmdResult)
    (lr : String → String) (fs : ContainerFS) (temp_path : String) :
    getFile (applyCmdFS run lr fs (cpToPermlistCmd temp_path)) "/data/allowlist.json" =
      getFile fs "/data/allowlist.json" := by
  rw [applyCmdFS_cpPerm]
  split
  · exact getFile_setFile_ne fs _ _ _ (by decide)
  · rfl

theorem applyTrace_nil (run : List String → CmdResult) (lr : String → String)
    (fs : ContainerFS) : applyTrace run lr fs [] = fs := rfl

theorem applyTrace_cons (run : List String → CmdResult) (lr : String → String)
    (fs : ContainerFS) (cmd : List String) (cmds : List (List String)) :
    applyTrace run lr fs (cmd :: cmds) = applyTrace run lr (applyCmdFS run lr fs cmd) cmds := rfl

/-- C4: remove deletes every entry whose name matches exactly, keeping the
survivors in their original relative order; with zero matches it fails
with UserNotFound, issues no write command, and the persisted allowlist
content is unchanged. -/
theorem C4_remove_user_correct (allow : List AllowlistEntry) (name : String) :
    (remove_userCore allow name = .error .userNotFoundAllowlist ↔
      ∀ u ∈ allow, u.name ≠ name) ∧
    ((∃ u ∈ allow, u.name = name) →
      remove_userCore allow name = .ok (allow.filter (fun u => u.name != name))) ∧
    (∀ out, remove_userCore allow name = .ok out →
      out = allow.filter (fun u => u.name != name) ∧ out.Sublist allow ∧
      (∀ u ∈ out, u.name ≠ name) ∧ (∀ u ∈ allow, u.name ≠ name → u ∈ out)) ∧
    (∀ run temp_path localRead fs, readAllowlistStep run = .ok allow →
      (∀ u ∈ allow, u.name ≠ name) →
      (remove_user run temp_path name).trace = [catAllowlistCmd] ∧
      getFile (applyTrace run localRead fs (remove_user run temp_path name).trace)
          "/data/allowlist.json" = getFile fs "/data/allowlist.json") := by
  have hiff : ((allow.filter (fun u => u.name != name)).length == allow.length) = true ↔
      ∀ u ∈ allow, u.name ≠ name := by
    simp only [beq_iff_eq]
    rw [filter_length_eq_iff]
    constructor
    · intro h u hu
      simpa using h u hu
    · intro h u hu
      simpa using h u hu
  refine ⟨?_, ?_, ?_, ?_⟩
  · unfold remove_userCore
    split <;> rename_i h
    · exact ⟨fun _ => hiff.mp h, fun _ => rfl⟩
    · constructor
      · intro he
        exact Except.noConfusion he
      · intro hall
        exact absurd (hiff.mpr hall) h
  · intro ⟨u, hu, hname⟩
    unfold remove_userCore
    rw [if_neg ?hc]
    case hc =>
      intro hlen
      exact absurd hname (hiff.mp hlen u hu)
  · intro out hout
    unfold remove_userCore at hout
    split at hout
    · exact Except.noConfusion hout
    · simp only [Except.ok.injEq] at hout
      subst hout
      refine ⟨rfl, List.filter_sublist allow, ?_, ?_⟩
      · intro u hu
        have := (List.mem_filter.mp hu).2
        simpa using this
      · intro u hu hname
        exact List.mem_filter.mpr ⟨hu, by simpa using hname⟩
  · intro run temp_path localRead fs hread hall
    have hcore : remove_userCore allow name = .error .userNotFoundAllowlist := by
      unfold remove_userCore
      rw [if_pos (hiff.mpr hall)]
    unfold remove_user
    rw [hread]
    simp only [hcore]
    refine ⟨by simp, ?_⟩
    rw [applyTrace_cons, applyCmdFS_catAllow, applyTrace_nil]

theorem C4_witness :
    remove_userCore
        [{ name := "alice", uuid := "u1", xuid := some "x1" },
         { name := "bob", uuid := "u2", xuid := none }] "alice" =
      .ok [{ name := "bob", uuid := "u2", xuid := none }] :=
  (C4_remove_user_correct
    [{ name := "alice", uuid := "u1", xuid := some "x1" },
     { name := "bob", uuid := "u2", xuid := none }] "alice").2.1
    ⟨{ name := "alice", uuid := "u1", xuid := some "x1" }, by decide, rfl⟩

/-- C2 (amended): when the read command fails (the remote list file is
absent), every membership operation starts from the empty in-memory
collection without signalling an error; but when the read command
succeeds and its output is unparsable as JSON, the read step raises the
uncaught JSON decode error instead of starting empty. -/
theorem C2_read_step (run : List String → CmdResult) :
    ((run catAllowlistCmd).returncode ≠ 0 → readAllowlistStep run = .ok []) ∧
    ((run catAllowlistCmd).returncode = 0 →
      parseAllowlist (run catAllowlistCmd).stdout = none →
      readAllowlistStep run = .error .jsonDecodeError) ∧
    ((run catPermlistCmd).returncode ≠ 0 → readPermlistStep run = .ok []) ∧
    ((run catPermlistCmd).returncode = 0 →
      parsePermissionlist (run catPermlistCmd).stdout = none →
      readPermlistStep run = .error .jsonDecodeError) := by
  refine ⟨?_, ?_, ?_, ?_⟩
  · intro h
    unfold readAllowlistStep
    rw [if_neg (by simpa using h)]
  · intro h hp
    unfold readAllowlistStep
    rw [if_pos (by simpa using h), hp]
  · intro h
    unfold readPermlistStep
    rw [if_neg (by simpa using h)]
  · intro h hp
    unfold readPermlistStep
    rw [if_pos (by simpa using h), hp]

/-- C2 counterexample to the claim as stated: when the read command
succeeds but returns content that is not JSON, the operation does not
start from an empty collection — it raises the JSON decode error. -/
theorem C2_counterexample :
    ((fun _ => { returncode := 0, stdout := "not json" } :
        List String → CmdResult) catAllowlistCmd).returncode = 0 ∧
    parseAllowlist "not json" = none ∧
    (add_user (fun _ => { returncode := 0, stdout := "not json" }) "/tmp/t0"
        "alice" "u1").result = .error .jsonDecodeError := by
  refine ⟨rfl, by decide, ?_⟩
  rfl

theorem C2_witness :
    readAllowlistStep (fun _ => { returncode := 1, stdout := "" }) = .ok [] ∧
    readAllowlistStep (fun _ => { returncode := 0, stdout := "nope" }) =
      .error .jsonDecodeError :=
  ⟨(C2_read_step (fun _ => { returncode := 1, stdout := "" })).1 (by decide),
   (C2_read_step (fun _ => { returncode := 0, stdout := "nope" })).2.1 rfl (by decide)⟩

/-- C7: whenever the archive step of backup reports a non-zero exit
status, the operation aborts with ArchiveFailed and the trace holds
exactly the one archive command — no transfer command is ever issued. -/
theorem C7_backup_short_circuit (run : List String → CmdResult)
    (backup_name backup_dest : String)
    (h : (run (tarCmd backup_name)).returncode ≠ 0) :
    backup run backup_name backup_dest =
      { result := .error .archiveFailed, trace := [tarCmd backup_name],
        tempsCreated := [], tempsDeleted := [], tempContent := none } ∧
    (backup run backup_name backup_dest).trace.length = 1 ∧
    ∀ cmd ∈ (backup run backup_name backup_dest).trace, cmd = tarCmd backup_name := by
  have he : backup run backup_name backup_dest =
      { result := .error .archiveFailed, trace := [tarCmd backup_name],
        tempsCreated := [], tempsDeleted := [], tempContent := none } := by
    unfold backup
    rw [if_neg (by simpa using h)]
  refine ⟨he, ?_, ?_⟩
  · rw [he]
    rfl
  · rw [he]
    intro cmd hc
    simpa using hc

theorem C7_witness :
    (backup (fun _ => { returncode := 1, stdout := "" }) "backup.tar.gz" "/tmp").trace.length
      = 1 :=
  (C7_backup_short_circuit (fun _ => { returncode := 1, stdout := "" })
    "backup.tar.gz" "/tmp" (by decide)).2.1

/-- C9: publishing the serialization of any list of entries to a path of
the container volume and then fetching and deserializing that path yields
a collection equal to the original, same entries in the same order,
including the empty list; likewise for the permission list. -/
theorem C9_round_trip (L : List AllowlistEntry) (P : List PermissionEntry)
    (fs : ContainerFS) (path : String) :
    (fetchContent (setFile fs path (serializeAllowlist L)) path).returncode = 0 ∧
    parseAllowlist (fetchContent (setFile fs path (serializeAllowlist L)) path).stdout =
      some L ∧
    (fetchContent (setFile fs path (serializePermissionlist P)) path).returncode = 0 ∧
    parsePermissionlist
        (fetchContent (setFile fs path (serializePermissionlist P)) path).stdout =
      some P := by
  refine ⟨?_, ?_, ?_, ?_⟩
  · unfold fetchContent
    rw [getFile_setFile]
  · unfold fetchContent
    rw [getFile_setFile]
    exact parseAllowlist_serializeAllowlist L
  · unfold fetchContent
    rw [getFile_setFile]
  · unfold fetchContent
    rw [getFile_setFile]
    exact parsePermissionlist_serializePermissionlist P

theorem applyTrace_catA (run : List String → CmdResult) (lr : String → String)
    (fs : ContainerFS) : applyTrace run lr fs [catAllowlistCmd] = fs := by
  rw [applyTrace_cons, applyCmdFS_catAllow, applyTrace_nil]

theorem applyTrace_catA_catP (run : List String → CmdResult) (lr : String → String)
    (fs : ContainerFS) : applyTrace run lr fs [catAllowlistCmd, catPermlistCmd] = fs := by
  rw [applyTrace_cons, applyCmdFS_catAllow, applyTrace_cons, applyCmdFS_catPerm,
    applyTrace_nil]

theorem preservePerm_catA_cpAllow (run : List String → CmdResult) (lr : String → String)
    (fs : ContainerFS) (temp_path : String) :
    getFile (applyTrace run lr fs [catAllowlistCmd, cpToAllowlistCmd temp_path])
      "/data/permissionlist.json" = getFile fs "/data/permissionlist.json" := by
  rw [applyTrace_cons, applyCmdFS_catAllow, applyTrace_cons, applyTrace_nil,
    getFile_applyCmdFS_cpAllow_perm]

theorem preserveAllow_catA_catP_cpPerm (run : List String → CmdResult)
    (lr : String → String) (fs : ContainerFS) (temp_path : String) :
    getFile (applyTrace run lr fs
        [catAllowlistCmd, catPermlistCmd, cpToPermlistCmd temp_path])
      "/data/allowlist.json" = getFile fs "/data/allowlist.json" := by
  rw [applyTrace_cons, applyCmdFS_catAllow, applyTrace_cons, applyCmdFS_catPerm,
    applyTrace_cons, applyTrace_nil, getFile_applyCmdFS_cpPerm_allow]

/-- C10: each mutating command writes only its own list file. For every
oracle and container state, the trace of add_user and of remove_user
leaves the permission list content unchanged, and the trace of grant and
of revoke leaves the allowlist content unchanged. -/
theorem C10_frame (run : List String → CmdResult) (lr : String → String)
    (fs : ContainerFS) (temp_path name uuid lvl : String) :
    getFile (applyTrace run lr fs (add_user run temp_path name uuid).trace)
        "/data/permissionlist.json" = getFile fs "/data/permissionlist.json" ∧
    getFile (applyTrace run lr fs (remove_user run temp_path name).trace)
        "/data/permissionlist.json" = getFile fs "/data/permissionlist.json" ∧
    getFile (applyTrace run lr fs (grant run temp_path name lvl).trace)
        "/data/allowlist.json" = getFile fs "/data/allowlist.json" ∧
    getFile (applyTrace run lr fs (revoke run temp_path name).trace)
        "/data/allowlist.json" = getFile fs "/data/allowlist.json" := by
  refine ⟨?_, ?_, ?_, ?_⟩
  · unfold add_user
    cases hr : readAllowlistStep run with
    | error e => simp only [hr, applyTrace_catA]
    | ok allow =>
      simp only [hr]
      cases hc : add_userCore allow name uuid with
      | error e => simp only [hc, applyTrace_catA]
      | ok newData =>
        simp only [hc, publishStep]
        split <;> simp only [List.cons_append, List.nil_append,
          preservePerm_catA_cpAllow]
  · unfold remove_user
    cases hr : readAllowlistStep run with
    | error e => simp only [hr, applyTrace_catA]
    | ok allow =>
      simp only [hr]
      cases hc : remove_userCore allow name with
      | error e => simp only [hc, applyTrace_catA]
      | ok newData =>
        simp only [hc, publishStep]
        split <;> simp only [List.cons_append, List.nil_append,
          preservePerm_catA_cpAllow]
  · unfold grant
    cases hr : readAllowlistStep run with
    | error e => simp only [hr, applyTrace_catA]
    | ok allow =>
      simp only [hr]
      cases hfind : findGrantTarget allow name with
      | none => simp only [hfind, applyTrace_catA]
      | some u =>
        simp only [hfind]
        cases hp : readPermlistStep run with
        | error e => simp only [hp, applyTrace_catA_catP]
        | ok perms =>
          simp only [hp]
          cases hg : grantAfterLookup u perms lvl with
          | error e => simp only [hg, applyTrace_catA_catP]
          | ok newData =>
            simp only [hg, publishStep]
            split <;> simp only [List.cons_append, List.nil_append,
              preserveAllow_catA_catP_cpPerm]
  · unfold revoke
    cases hr : readAllowlistStep run with
    | error e => simp only [hr, applyTrace_catA]
    | ok allow =>
      simp only [hr]
      cases hfind : findGrantTarget allow name with
      | none => simp only [hfind, applyTrace_catA]
      | some u =>
        simp only [hfind]
        cases hp : readPermlistStep run with
        | error e => simp only [hp, applyTrace_catA_catP]
        | ok perms =>
          simp only [hp]
          cases hg : revokeAfterLookup u perms with
          | error e => simp only [hg, applyTrace_catA_catP]
          | ok newData =>
            simp only [hg, publishStep]
            split <;> simp only [List.cons_append, List.nil_append,
              preserveAllow_catA_catP_cpPerm]

theorem applyCmdFS_cpAllow_fail (run : List String → CmdResult) (lr : String → String)
    (fs : ContainerFS) (temp_path : String)
    (h : (run (cpToAllowlistCmd temp_path)).returncode ≠ 0) :
    applyCmdFS run lr fs (cpToAllowlistCmd temp_path) = fs := by
  rw [applyCmdFS_cpAllow, if_neg (by simpa using h)]

theorem applyCmdFS_cpPerm_fail (run : List String → CmdResult) (lr : String → String)
    (fs : ContainerFS) (temp_path : String)
    (h : (run (cpToPermlistCmd temp_path)).returncode ≠ 0) :
    applyCmdFS run lr fs (cpToPermlistCmd temp_path) = fs := by
  rw [applyCmdFS_cpPerm, if_neg (by simpa using h)]

/-- C8: the publish step of add_user and of grant deletes exactly the
temporary files it created, on the success path and on the failure path
alike; and when the transfer command fails, the operation does not report
success — if it reached the write stage it signals the transfer error —
while the remote file keeps its previous content. -/
theorem C8_publish_discipline (run : List String → CmdResult)
    (temp_path name uuid lvl : String) :
    ((add_user run temp_path name uuid).tempsDeleted =
      (add_user run temp_path name uuid).tempsCreated) ∧
    ((grant run temp_path name lvl).tempsDeleted =
      (grant run temp_path name lvl).tempsCreated) ∧
    ((remove_user run temp_path name).tempsDeleted =
      (remove_user run temp_path name).tempsCreated) ∧
    ((revoke run temp_path name).tempsDeleted =
      (revoke run temp_path name).tempsCreated) ∧
    ((run (cpToAllowlistCmd temp_path)).returncode ≠ 0 →
      (add_user run temp_path name uuid).result ≠ .ok () ∧
      ((add_user run temp_path name uuid).tempContent.isSome →
        (add_user run temp_path name uuid).result = .error .transferFailed) ∧
      ∀ lr fs, getFile (applyTrace run lr fs (add_user run temp_path name uuid).trace)
          "/data/allowlist.json" = getFile fs "/data/allowlist.json") ∧
    ((run (cpToPermlistCmd temp_path)).returncode ≠ 0 →
      (grant run temp_path name lvl).result ≠ .ok () ∧
      ((grant run temp_path name lvl).tempContent.isSome →
        (grant run temp_path name lvl).result = .error .transferFailed) ∧
      ∀ lr fs, getFile (applyTrace run lr fs (grant run temp_path name lvl).trace)
          "/data/permissionlist.json" = getFile fs "/data/permissionlist.json") := by
  refine ⟨?_, ?_, ?_, ?_, ?_, ?_⟩
  · unfold add_user
    cases hr : readAllowlistStep run with
    | error e => simp only [hr]
    | ok allow =>
      simp only [hr]
      cases hc : add_userCore allow name uuid with
      | error e => simp only [hc]
      | ok newData =>
        simp only [hc, publishStep]
        split <;> rfl
  · unfold grant
    cases hr : readAllowlistStep run with
    | error e => simp only [hr]
    | ok allow =>
      simp only [hr]
      cases hfind : findGrantTarget allow name with
      | none => simp only [hfind]
      | some u =>
        simp only [hfind]
        cases hp : readPermlistStep run with
        | error e => simp only [hp]
        | ok perms =>
          simp only [hp]
          cases hg : grantAfterLookup u perms lvl with
          | error e => simp only [hg]
          | ok newData =>
            simp only [hg, publishStep]
            split <;> rfl
  · unfold remove_user
    cases hr : readAllowlistStep run with
    | error e => simp only [hr]
    | ok allow =>
      simp only [hr]
      cases hc : remove_userCore allow name with
      | error e => simp only [hc]
      | ok newData =>
        simp only [hc, publishStep]
        split <;> rfl
  · unfold revoke
    cases hr : readAllowlistStep run with
    | error e => simp only [hr]
    | ok allow =>
      simp only [hr]
      cases hfind : findGrantTarget allow name with
      | none => simp only [hfind]
      | some u =>
        simp only [hfind]
        cases hp : readPermlistStep run with
        | error e => simp only [hp]
        | ok perms =>
          simp only [hp]
          cases hg : revokeAfterLookup u perms with
          | error e => simp only [hg]
          | ok newData =>
            simp only [hg, publishStep]
            split <;> rfl
  · intro hcp
    unfold add_user
    cases hr : readAllowlistStep run with
    | error e =>
      simp only [hr]
      exact ⟨by simp, by simp, fun lr fs => by rw [applyTrace_catA]⟩
    | ok allow =>
      simp only [hr]
      cases hc : add_userCore allow name uuid with
      | error e =>
        simp only [hc]
        exact ⟨by simp, by simp, fun lr fs => by rw [applyTrace_catA]⟩
      | ok newData =>
        simp only [hc, publishStep]
        rw [if_neg (by simpa using hcp)]
        refine ⟨by simp, fun _ => rfl, fun lr fs => ?_⟩
        simp only [List.cons_append, List.nil_append]
        rw [applyTrace_cons, applyCmdFS_catAllow, applyTrace_cons,
          applyCmdFS_cpAllow_fail run lr _ temp_path hcp, applyTrace_nil]
  · intro hcp
    unfold grant
    cases hr : readAllowlistStep run with
    | error e =>
      simp only [hr]
      exact ⟨by simp, by simp, fun lr fs => by rw [applyTrace_catA]⟩
    | ok allow =>
      simp only [hr]
      cases hfind : findGrantTarget allow name with
      | none =>
        simp only [hfind]
        exact ⟨by simp, by simp, fun lr fs => by rw [applyTrace_catA]⟩
      | some u =>
        simp only [hfind]
        cases hp : readPermlistStep run with
        | error e =>
          simp only [hp]
          exact ⟨by simp, by simp, fun lr fs => by rw [applyTrace_catA_catP]⟩
        | ok perms =>
          simp only [hp]
          cases hg : grantAfterLookup u perms lvl with
          | error e =>
            simp only [hg]
            exact ⟨by simp, by simp, fun lr fs => by rw [applyTrace_catA_catP]⟩
          | ok newData =>
            simp only [hg, publishStep]
            rw [if_neg (by simpa using hcp)]
            refine ⟨by simp, fun _ => rfl, fun lr fs => ?_⟩
            simp only [List.cons_append, List.nil_append]
            rw [applyTrace_cons, applyCmdFS_catAllow, applyTrace_cons,
              applyCmdFS_catPerm, applyTrace_cons,
              applyCmdFS_cpPerm_fail run lr _ temp_path hcp, applyTrace_nil]

theorem C8_witness :
    (add_user (fun _ => { returncode := 1, stdout := "" }) "/tmp/t0" "alice" "u1").result =
      .error .transferFailed :=
  ((C8_publish_discipline (fun _ => { returncode := 1, stdout := "" }) "/tmp/t0"
      "alice" "u1" "member").2.2.2.2.1 (by decide)).2.1 (by decide)

end McCli
